import Mathlib

/-!
Verification development for the RJMS control layer of `batsim_py`
(`batsim_py/rjms.py`: `RJMSHandler` and `Agenda`).

The embedding below is a shallow functional translation of `rjms.py`.
The repository modules that `rjms.py` imports (`batsim_py.resource`,
`batsim_py.job`, `batsim_py.network`, `batsim_py.simulator`,
`batsim_py.utils.submitter`) are not part of the sources; where their
behaviour matters it is modelled from the specification document and each
such definition is marked `Modelled from the spec:` in its doc comment.

Conventions:
* Times and walltimes are exact rationals (`ℚ`); an absent (infinite)
  walltime is `Option.none`, and the source's float arithmetic
  `finite / inf = 0` is written out explicitly where it occurs.
* Job and resource identifiers are natural numbers.
* Python dictionaries keyed by identifiers become association lists.
* A method that can raise returns the state paired with an optional
  error (the state component is the state at the moment the exception
  escapes, matching Python's in-place mutation), or `Option` when only
  success/failure matters.
-/

namespace BatsimPy

/-- Modelled from the spec: the per-resource lifecycle states
(spec §3: idle, computing, switching-on, switching-off, sleeping);
`rjms.py` consults them through `r.is_idle` / `r.is_sleeping`
(`ResourceState` is imported from the absent `batsim_py.resource`). -/
inductive ResourceState where
  | sleeping
  | switching_on
  | switching_off
  | idle
  | computing

deriving instance DecidableEq, Repr for ResourceState

/-- Modelled from the spec: a resource is a leaf compute element with an
id, the id of its parent host (`parent_id` in `rjms.py`), and a lifecycle
state (the class itself lives in the absent `batsim_py.resource`). -/
structure Resource where
  id : Nat
  parent_id : Nat
  state : ResourceState

deriving instance DecidableEq, Repr for Resource

/-- Modelled from the spec: job lifecycle states (spec §3).  `rjms.py`
uses `JobState.RUNNING` and `JobState.COMPLETED_KILLED` from the absent
`batsim_py.job`. -/
inductive JobState where
  | submitted
  | runnable
  | running
  | completed_ok
  | completed_killed
  | completed_walltime
  | rejected

deriving instance DecidableEq, Repr for JobState

/-- Modelled from the spec: a job record (spec §3) with the fields
`rjms.py` reads and writes: `id`, requested resource count `res`,
optional `walltime` (none = infinite), lifecycle `state`, optional
`allocation` (list of resource ids, set by `set_allocation`),
`start_time` (set by `job.start(now)`) and `stop_time`
(set by `job.terminate(now, state)`). -/
structure Job where
  id : Nat
  res : Nat
  walltime : Option ℚ := none
  state : JobState := .submitted
  allocation : Option (List Nat) := none
  start_time : ℚ := 0
  stop_time : ℚ := 0

deriving instance DecidableEq, Repr for Job

/-- `job.allocation` as the list `rjms.py` iterates over (the handlers
only read it once it has been set). -/
def Job.alloc (j : Job) : List Nat :=
  j.allocation.getD []

/-- `job.start(current_time)` — Modelled from the spec: sets the state to
running and records `start_time` (absent `batsim_py.job`). -/
def job_start (j : Job) (t : ℚ) : Job :=
  { j with state := .running, start_time := t }

/-- `job.terminate(current_time, final_state)` — Modelled from the spec:
records `stop_time` and the final state (absent `batsim_py.job`). -/
def job_terminate (j : Job) (t : ℚ) (st : JobState) : Job :=
  { j with state := st, stop_time := t }

/-- The agenda's reservation table: `Agenda.__init__` builds
`SortedDict(..., {r: None for r in platform.resources})`.  Following the
spec ("a mapping from resource id (stable sorted by id) to reservation",
§3), entries are keyed by resource id; the key set is fixed to the
platform's resources. -/
structure Agenda where
  reservations : List (Nat × Option Job)

deriving instance DecidableEq, Repr for Agenda

/-- Association-list access `m[k]`, the embedding of a Python dictionary
read: `none` is a `KeyError`. -/
def alookup {β : Type} : List (Nat × β) → Nat → Option β
  | [], _ => none
  | p :: t, k => if p.1 = k then some p.2 else alookup t k

/-- `self.reservations[i] = v` on an existing key: every entry whose key
equals `i` is overwritten (keys are unique on reachable agendas). -/
def setRes (m : List (Nat × Option Job)) (i : Nat) (v : Option Job) :
    List (Nat × Option Job) :=
  m.map (fun p => if p.1 = i then (p.1, v) else p)

/-- `for r in ids: self.reservations[r] = v`. -/
def setAll (m : List (Nat × Option Job)) (ids : List Nat) (v : Option Job) :
    List (Nat × Option Job) :=
  ids.foldl (fun acc i => setRes acc i v) m

/-- `Agenda.reserve(job)` (`rjms.py` 286-289): asserts that every resource
in `job.allocation` is currently free, then assigns the job to each of
them.  A failed assertion (or a missing key) is `none`; no entry is
written in that case because Python evaluates the whole `all(...)` before
the loop. -/
def Agenda.reserve (a : Agenda) (j : Job) : Option Agenda :=
  if (j.alloc).all (fun r => decide (alookup a.reservations r = some none)) then
    some ⟨setAll a.reservations j.alloc (some j)⟩
  else
    none

/-- `Agenda.release(*resource_ids)` (`rjms.py` 291-293): unconditionally
clears each listed entry. -/
def Agenda.release (a : Agenda) (ids : List Nat) : Agenda :=
  ⟨setAll a.reservations ids none⟩

/-- The per-entry value computed by `Agenda.get_progress`
(`rjms.py` 295-305): `0` for a free resource, `1 - runtime / walltime`
for a running job, and `1` otherwise.  The source stores an infinite
walltime as the float `inf`, for which `runtime / inf` is exactly `0`;
the `none` walltime branch writes that arithmetic out. -/
def jobProgress (now : ℚ) (res : Option Job) : ℚ :=
  match res with
  | none => 0
  | some j =>
    if j.state = .running then
      match j.walltime with
      | some w => 1 - (now - j.start_time) / w
      | none => 1 - 0
    else 1

/-- `Agenda.get_progress(current_time)` (`rjms.py` 295-305), one value per
reservation entry in table order. -/
def Agenda.get_progress (a : Agenda) (now : ℚ) : List ℚ :=
  a.reservations.map (fun p => jobProgress now p.2)

/-! ### Simulator adapter and controller state -/

/-- Outgoing protocol requests the controller issues through the
simulator adapter (spec §6; pstate ids are abstracted away, only the
targeted resource ids are kept). -/
inductive Request where
  | execute (job_id : Nat) (alloc : List Nat)
  | reject (job_id : Nat)
  | set_pstate (resource_ids : List Nat)
  | call_me_later (t : ℚ)

deriving instance DecidableEq, Repr for Request

/-- Modelled from the spec: one future event batch of the simulator
adapter, reduced to what `rjms.py` observes through the adapter —
the new `current_time` and whether the batch ends the simulation
(the concrete `GridSimulatorHandler`/`BatsimSimulatorHandler` are in the
absent `batsim_py.simulator`). -/
structure SimStep where
  time : ℚ
  ends : Bool

deriving instance DecidableEq, Repr for SimStep

/-- Modelled from the spec: the adapter's visible state — `is_running`,
`current_time`, and the prescribed future event batches. -/
structure SimState where
  running : Bool
  time : ℚ
  trace : List SimStep

deriving instance DecidableEq, Repr for SimState

/-- Modelled from the spec: `proceed_simulation()` blocks for the next
event batch; when the prescribed trace is exhausted the simulation ends. -/
def SimState.proceed (sim : SimState) : SimState :=
  match sim.trace with
  | [] => { sim with running := false }
  | st :: rest => { running := sim.running && !st.ends, time := st.time, trace := rest }

/-- Fuel-indexed unfolding of `while self.simulator.is_running:
proceed_simulation()`; `trace.length + 1` units of fuel reach the
loop's exit because each `proceed` consumes one trace element and an
exhausted trace stops the simulator. -/
def drainAux : Nat → SimState → SimState
  | 0, sim => sim
  | n + 1, sim => if sim.running then drainAux n sim.proceed else sim

/-- `while self.simulator.is_running: self.simulator.proceed_simulation()`
(the end-of-simulation drain, `rjms.py` 134-135). -/
def SimState.drain (sim : SimState) : SimState :=
  drainAux (sim.trace.length + 1) sim

/-- Fuel-indexed unfolding of `while self.is_running and
self.current_time < until: proceed_simulation()` (`rjms.py` 124-125). -/
def loopAux : Nat → ℚ → SimState → SimState
  | 0, _, sim => sim
  | n + 1, u, sim => if sim.running ∧ sim.time < u then loopAux n u sim.proceed else sim

/-- The bounded advance loop of `proceed_time` (`rjms.py` 124-125). -/
def loop_until (sim : SimState) (u : ℚ) : SimState :=
  loopAux (sim.trace.length + 1) u sim

/-- The controller state of `RJMSHandler`: the four job cohorts
(`self._jobs`), the platform's resources, the agenda, the adapter state,
the `submitter_ended` and `use_batsim` flags, and the log of protocol
requests issued so far. -/
structure RJMSState where
  queue : List Job
  ready : List Job
  running : List (Nat × Job)
  completed : List Job
  platform : List Resource
  agenda : Agenda
  sim : SimState
  submitter_ended : Bool
  use_batsim : Bool
  requests : List Request

deriving instance DecidableEq, Repr for RJMSState

/-- Errors raised by the `RJMSHandler` methods under study
(assertion failures and the explicit `InsufficientResources`). -/
inductive RJMSErr where
  | NotRunning
  | InvalidArgument
  | JobNotFound
  | InsufficientResources
  | AlreadyReserved

deriving instance DecidableEq, Repr for RJMSErr

/-! ### Platform helpers -/

/-- `self.platform.get_resources(ids)` — Modelled from the spec: returns
the resources with the given ids, in the order of `ids` (absent
`batsim_py.resource.Platform`). -/
def get_resources (plat : List Resource) (ids : List Nat) : List Resource :=
  ids.filterMap (fun i => plat.find? (fun r => r.id = i))

/-- The state of the resource with id `rid`, if it exists. -/
def stateOf (plat : List Resource) (rid : Nat) : Option ResourceState :=
  (plat.find? (fun r => r.id = rid)).map Resource.state

/-- `RJMSHandler.turn_on(node_id)` (`rjms.py` 197-207) restricted to one
node, as `start_ready_jobs` invokes it: `node.wakeup()` moves the node's
sleeping resources to switching-on (Modelled from the spec:
sleeping → switching-on on `wake_up()`, §4.1) and a single
`set_resources_pstate` request is issued for the node's resources. -/
def turn_on (s : RJMSState) (hid : Nat) : RJMSState :=
  { s with
    platform := s.platform.map (fun r =>
      if r.parent_id = hid ∧ r.state = .sleeping then { r with state := .switching_on } else r),
    requests := s.requests ++
      [.set_pstate ((s.platform.filter (fun r => r.parent_id = hid)).map Resource.id)] }

/-- `r.release()` for each completed resource — Modelled from the spec:
the resource returns to idle (absent `batsim_py.resource`). -/
def release_platform (plat : List Resource) (ids : List Nat) : List Resource :=
  plat.map (fun r => if r.id ∈ ids then { r with state := .idle } else r)

/-! ### Ready-job activation (`initiate_resources`, `start_ready_jobs`) -/

/-- The loop body of `RJMSHandler.initiate_resources` (`rjms.py`
221-229): walks the allocated resources keeping the `ready` flag and the
`nodes_visited` set; a non-idle resource on an unvisited node clears the
flag, and a sleeping one additionally wakes its node. -/
def initiate_go : List Resource → Bool → List Nat → RJMSState → Bool × RJMSState
  | [], rd, _, s => (rd, s)
  | r :: rest, rd, visited, s =>
    if r.state ≠ .idle ∧ r.parent_id ∉ visited then
      initiate_go rest false (visited ++ [r.parent_id])
        (if r.state = .sleeping then turn_on s r.parent_id else s)
    else
      initiate_go rest rd visited s

/-- `RJMSHandler.initiate_resources(resources)` (`rjms.py` 221-229). -/
def initiate_resources (s : RJMSState) (rs : List Resource) : Bool × RJMSState :=
  initiate_go rs true [] s

/-- One iteration of the `start_ready_jobs` sweep (`rjms.py` 232-241):
check the job's allocated resources; when all are idle, mark them
computing, start the job at the current time, issue `execute_job`, and
move the job from `ready` to `running`. -/
def start_one (s : RJMSState) (job : Job) : RJMSState :=
  if (initiate_resources s (get_resources s.platform job.alloc)).1 then
    { (initiate_resources s (get_resources s.platform job.alloc)).2 with
      platform := (initiate_resources s (get_resources s.platform job.alloc)).2.platform.map
        (fun (r : Resource) =>
          if r.id ∈ job.alloc then { r with state := .computing } else r),
      requests := (initiate_resources s (get_resources s.platform job.alloc)).2.requests
        ++ [.execute job.id job.alloc],
      ready := (initiate_resources s (get_resources s.platform job.alloc)).2.ready.eraseP
        (fun k => k.id == job.id),
      running := (initiate_resources s (get_resources s.platform job.alloc)).2.running
        ++ [(job.id, job_start job s.sim.time)] }
  else (initiate_resources s (get_resources s.platform job.alloc)).2

/-- `RJMSHandler.start_ready_jobs` (`rjms.py` 231-241): iterates over a
snapshot (`list(self._jobs['ready'])`) of the ready cohort. -/
def start_ready_jobs (s : RJMSState) : RJMSState :=
  s.ready.foldl start_one s

/-! ### `proceed_time` and the end-of-simulation drain -/

/-- `RJMSHandler.check_end_of_simulation` (`rjms.py` 132-135). -/
def check_end_of_simulation (s : RJMSState) : RJMSState :=
  if s.submitter_ended ∧ s.sim.running = true ∧ s.ready.length = 0 ∧
      s.running.length = 0 ∧ s.queue.length = 0 then
    { s with sim := s.sim.drain }
  else s

/-- The tail of `proceed_time` (`rjms.py` 129-130): the drain check runs
only under `if self.use_batsim`. -/
def proceed_post (s : RJMSState) : RJMSState :=
  if s.use_batsim then check_end_of_simulation s else s

/-- `self.simulator.call_me_later(t)`: the request is logged; its effect
on the event trace is part of the prescribed `SimState.trace`. -/
def call_me_later (s : RJMSState) (t : ℚ) : RJMSState :=
  { s with requests := s.requests ++ [.call_me_later t] }

/-- `RJMSHandler.proceed_time(until=0)` (`rjms.py` 118-130): asserts a
simulation is running, sweeps the ready jobs, then either advances in a
loop up to `until` (when `until > 0`, after asserting
`until > current_time`) or advances a single batch; finally the
Batsim-only end-of-simulation check.  The returned state is the state at
the moment an assertion fails.  (`until` is a Lean keyword, hence `untl`.) -/
def proceed_time (s : RJMSState) (untl : ℚ) : RJMSState × Option RJMSErr :=
  if s.sim.running = true then
    if 0 < untl then
      if (start_ready_jobs s).sim.time < untl then
        (proceed_post
          { call_me_later (start_ready_jobs s) (untl + 1 / 1000) with
            sim := loop_until
              (call_me_later (start_ready_jobs s) (untl + 1 / 1000)).sim untl },
         none)
      else (start_ready_jobs s, some .InvalidArgument)
    else
      (proceed_post
        { start_ready_jobs s with sim := (start_ready_jobs s).sim.proceed }, none)
  else (s, some .NotRunning)

/-! ### Event handlers -/

/-- The payload of a `JOB_SUBMITTED` event. -/
structure SubmitData where
  job : Job

/-- `RJMSHandler.on_job_submitted` (`rjms.py` 146-150): a job demanding
more than `platform.nb_resources` is rejected through the adapter,
otherwise it joins the queue. -/
def on_job_submitted (s : RJMSState) (data : SubmitData) : RJMSState :=
  if s.platform.length < data.job.res then
    { s with requests := s.requests ++ [.reject data.job.id] }
  else
    { s with queue := s.queue ++ [data.job] }

/-- `self._jobs["running"].pop(job_id)`: the job and the remaining
dictionary, or `none` for a `KeyError`. -/
def popRunning (m : List (Nat × Job)) (k : Nat) : Option (Job × List (Nat × Job)) :=
  match alookup m k with
  | none => none
  | some j => some (j, m.eraseP (fun p => p.1 == k))

/-- The payload of a `JOB_COMPLETED` event. -/
structure CompletedData where
  job_id : Nat
  job_state : JobState

/-- `RJMSHandler.on_job_completed` (`rjms.py` 152-159): pop from
`running`, terminate, release every allocated resource on the platform
and in the agenda, append to `completed`. -/
def on_job_completed (s : RJMSState) (data : CompletedData) : Option RJMSState :=
  match popRunning s.running data.job_id with
  | none => none
  | some (job, rest) =>
    some { s with
      running := rest
      platform := release_platform s.platform job.alloc
      agenda := s.agenda.release job.alloc
      completed := s.completed ++ [job_terminate job s.sim.time data.job_state] }

/-- The payload of a `JOB_KILLED` event: the list of killed job ids, plus
the single `job_id` field that the source's loop body actually reads. -/
structure KilledData where
  job_ids : List Nat
  job_id : Nat

/-- The loop of `RJMSHandler.on_job_killed` (`rjms.py` 161-168): one
iteration per element of `data.job_ids`, but each iteration pops
`data.job_id`; the terminated job is appended to no cohort. -/
def kill_go : List Nat → Nat → ℚ → RJMSState → Option RJMSState
  | [], _, _, s => some s
  | _ :: rest, jid, now, s =>
    match popRunning s.running jid with
    | none => none
    | some (job, rem) =>
      kill_go rest jid now
        { s with
          running := rem
          platform := release_platform s.platform job.alloc
          agenda := s.agenda.release job.alloc }

/-- `RJMSHandler.on_job_killed` (`rjms.py` 161-168). -/
def on_job_killed (s : RJMSState) (data : KilledData) : Option RJMSState :=
  kill_go data.job_ids data.job_id s.sim.time s

/-! ### `allocate` -/

/-- Modelled from the spec: the sort key `r.state.value` used by
`allocate`'s greedy selection (spec §9: computing > idle > switching-on >
switching-off > sleeping preference; the numeric enum values live in the
absent `batsim_py.resource`). -/
def stateValue : ResourceState → Nat
  | .computing => 0
  | .idle => 1
  | .switching_on => 2
  | .switching_off => 3
  | .sleeping => 4

/-- `Agenda.get_available_resources` (`rjms.py` 283-284) projected to
resource ids: the free entries in table order. -/
def available_ids (a : Agenda) : List Nat :=
  a.reservations.filterMap (fun p => if p.2.isNone then some p.1 else none)

/-- Stable insertion of a resource into a list sorted by `stateValue`
(Python's `sorted` is stable). -/
def insertByState (r : Resource) : List Resource → List Resource
  | [] => [r]
  | h :: t =>
    if stateValue r.state ≤ stateValue h.state then r :: h :: t
    else h :: insertByState r t

/-- `sorted(self._agenda.get_available_resources(), key=lambda r:
r.state.value)` as a stable sort. -/
def sortByState (rs : List Resource) : List Resource :=
  rs.foldr insertByState []

/-- The default resource selection of `allocate` (`rjms.py` 249-252):
the first `n` free resources preferring already-powered hosts. -/
def auto_select (s : RJMSState) (n : Nat) : List Nat :=
  ((sortByState (get_resources s.platform (available_ids s.agenda))).take n).map Resource.id

/-- `RJMSHandler.allocate(job_id, resource_ids=None)` (`rjms.py`
247-262): find the queued job (`StopIteration` otherwise), pick resources
when none are given, check the count, bind the allocation
(`job.set_allocation`, which mutates the queued job), reserve on the
agenda, and move the job from `queue` to `ready`.  The returned state is
the state at the moment an exception escapes. -/
def allocate (s : RJMSState) (job_id : Nat) (resource_ids : Option (List Nat)) :
    RJMSState × Option RJMSErr :=
  match s.queue.find? (fun j => j.id == job_id) with
  | none => (s, some .JobNotFound)
  | some job =>
    let rids := match resource_ids with
      | some l => l
      | none => auto_select s job.res
    if rids.length = job.res then
      let job' := { job with allocation := some rids }
      let s1 := { s with queue := s.queue.map (fun k => if k.id == job_id then job' else k) }
      match s1.agenda.reserve job' with
      | none => (s1, some .AlreadyReserved)
      | some ag =>
        ({ s1 with
            agenda := ag
            queue := s1.queue.eraseP (fun k => k.id == job_id)
            ready := s1.ready ++ [job'] }, none)
    else (s, some .InsufficientResources)

/-! ### Derived counts -/

/-- The number of `reject_job` requests issued so far: the "rejected"
cohort of the conservation law (the handler keeps no rejected list; a
rejection is exactly one `reject_job` request, `rjms.py` 148). -/
def rejected_count (s : RJMSState) : Nat :=
  (s.requests.filter (fun r => match r with | .reject _ => true | _ => false)).length

/-- The total number of jobs accounted for across the cohorts. -/
def cohortSum (s : RJMSState) : Nat :=
  s.queue.length + s.ready.length + s.running.length + s.completed.length + rejected_count s

/-! ### Host-readiness predicates (the spec's view, §4.6) -/

/-- The spec's readiness of a host: every resource it parents is idle or
computing (§4.6 "A host is ready iff in state idle or computing"). -/
def hostReady (plat : List Resource) (hid : Nat) : Prop :=
  ∀ r ∈ plat, r.parent_id = hid → r.state = .idle ∨ r.state = .computing

/-- Every host parenting one of the allocated resources is ready. -/
def allocHostsReady (plat : List Resource) (alloc : List Nat) : Prop :=
  ∀ r ∈ plat, r.id ∈ alloc → hostReady plat r.parent_id

/-- The code's start condition: every allocated resource is idle. -/
def allIdle (plat : List Resource) (alloc : List Nat) : Prop :=
  ∀ rid ∈ alloc, stateOf plat rid = some .idle

instance (plat : List Resource) (hid : Nat) : Decidable (hostReady plat hid) := by
  unfold hostReady; infer_instance

instance (plat : List Resource) (alloc : List Nat) : Decidable (allocHostsReady plat alloc) := by
  unfold allocHostsReady; infer_instance

instance (plat : List Resource) (alloc : List Nat) : Decidable (allIdle plat alloc) := by
  unfold allIdle; infer_instance

/-! ### Concrete instances used by counterexamples and witnesses -/

/-- A minimal adapter state: running at time 0, no prescribed batches. -/
def sim0 : SimState := ⟨true, 0, []⟩

/-- A minimal controller state used as the base of the concrete
instances below. -/
def base : RJMSState :=
  { queue := [], ready := [], running := [], completed := [], platform := [],
    agenda := ⟨[]⟩, sim := sim0, submitter_ended := false, use_batsim := false,
    requests := [] }

/-- A running job on resource 0 with walltime 10 that started at time 0. -/
def jOver : Job :=
  { id := 1, res := 1, walltime := some 10, state := .running,
    allocation := some [0], start_time := 0 }

/-- An agenda whose single resource is reserved by `jOver`. -/
def aOver : Agenda := ⟨[(0, some jOver)]⟩

/-- A running job with an infinite walltime on resource 1. -/
def jInf : Job :=
  { id := 2, res := 1, walltime := none, state := .running,
    allocation := some [1], start_time := 0 }

/-- An agenda whose single resource is reserved by `jInf`. -/
def aInf : Agenda := ⟨[(1, some jInf)]⟩

/-- A one-entry agenda whose resource 0 is free. -/
def aFree : Agenda := ⟨[(0, none)]⟩

/-- A job requesting resource 0. -/
def jW : Job := { id := 3, res := 1, allocation := some [0] }

/-- A second job requesting the same resource 0. -/
def j2W : Job := { id := 4, res := 1, allocation := some [0] }

/-- Two running jobs, each on its own (computing) resource. -/
def jK1 : Job :=
  { id := 1, res := 1, walltime := some 10, state := .running, allocation := some [0] }

/-- Second running job, on resource 1. -/
def jK2 : Job :=
  { id := 2, res := 1, walltime := some 10, state := .running, allocation := some [1] }

/-- A controller state with `jK1` and `jK2` running. -/
def sKill2 : RJMSState :=
  { base with
    running := [(1, jK1), (2, jK2)],
    platform := [⟨0, 0, .computing⟩, ⟨1, 0, .computing⟩],
    agenda := ⟨[(0, some jK1), (1, some jK2)]⟩ }

/-- A controller state with a single running job (id 5, resource 0). -/
def sKill1 : RJMSState :=
  { base with
    running := [(5, { jK1 with id := 5 })],
    platform := [⟨0, 0, .computing⟩],
    agenda := ⟨[(0, some { jK1 with id := 5 })]⟩ }

/-- A queued job (no allocation yet) over an agenda whose only resource
is already reserved by another job: `allocate` will fail in `reserve`. -/
def sAllocFail : RJMSState :=
  { base with
    queue := [{ id := 1, res := 1 }],
    agenda := ⟨[(0, some jOver)]⟩,
    platform := [⟨0, 0, .idle⟩] }

/-- A running simulation whose submitter has finished and whose cohorts
are all empty, with two more event batches ahead, on the synthetic
(grid) backend: the drain condition of `check_end_of_simulation` holds
after one advance, but `use_batsim` is false. -/
def sNoDrain : RJMSState :=
  { base with
    sim := ⟨true, 0, [⟨1, false⟩, ⟨2, false⟩]⟩,
    submitter_ended := true }

/-- The same situation on the Batsim backend (`use_batsim = true`). -/
def sDrain : RJMSState :=
  { sNoDrain with use_batsim := true }

/-- A running simulation at time 5 with one future batch. -/
def sProc : RJMSState :=
  { base with sim := ⟨true, 5, [⟨6, false⟩]⟩ }

/-- A controller whose simulation is not running. -/
def sClosed : RJMSState :=
  { base with sim := ⟨false, 0, []⟩ }

/-- An allocated job, ready to start on the idle resource 0. -/
def jReady : Job :=
  { id := 7, res := 1, state := .submitted, allocation := some [0] }

/-- A controller state with `jReady` allocated and host 0 idle. -/
def sReady : RJMSState :=
  { base with
    ready := [jReady],
    platform := [⟨0, 0, .idle⟩],
    agenda := ⟨[(0, some jReady)]⟩,
    sim := ⟨true, 3, [⟨4, false⟩]⟩ }

/-- A controller state with `jReady` allocated but host 0 sleeping. -/
def sAsleep : RJMSState :=
  { base with
    ready := [jReady],
    platform := [⟨0, 0, .sleeping⟩],
    agenda := ⟨[(0, some jReady)]⟩,
    sim := ⟨true, 3, [⟨4, false⟩]⟩ }

/-! ## Lemmas about the agenda table -/

theorem alookup_setRes (m : List (Nat × Option Job)) (i r : Nat) (v : Option Job) :
    alookup (setRes m i v) r
      = if r = i then (alookup m r).map (fun _ => v) else alookup m r := by
  induction m with
  | nil => by_cases hri : r = i <;> simp [setRes, alookup, hri]
  | cons p t ih =>
    by_cases hpr : p.1 = r
    · by_cases hri : r = i
      · have hpi : p.1 = i := hpr.trans hri
        simp [setRes, alookup, hpi, hpr, hri]
      · have hpi : ¬ p.1 = i := fun h => hri ((hpr.symm.trans h))
        simp [setRes, alookup, hpi, hpr, hri]
    · have hskip : alookup (setRes (p :: t) i v) r = alookup (setRes t i v) r := by
        by_cases hpi : p.1 = i
        · have hir : ¬ i = r := fun h => hpr (hpi.trans h)
          simp [setRes, alookup, hpi, hir]
        · simp [setRes, alookup, hpi, hpr]
      rw [hskip, ih]
      simp [alookup, hpr]

theorem alookup_setAll (m : List (Nat × Option Job)) (ids : List Nat) (v : Option Job)
    (r : Nat) :
    alookup (setAll m ids v) r
      = if r ∈ ids then (alookup m r).map (fun _ => v) else alookup m r := by
  induction ids generalizing m with
  | nil => simp [setAll]
  | cons i ids ih =>
    have step : setAll m (i :: ids) v = setAll (setRes m i v) ids v := rfl
    rw [step, ih]
    by_cases hri : r = i
    · subst hri
      by_cases hmem : r ∈ ids
      · rw [if_pos hmem, if_pos (List.mem_cons_self r ids), alookup_setRes, if_pos rfl]
        cases alookup m r <;> simp
      · rw [if_neg hmem, if_pos (List.mem_cons_self r ids), alookup_setRes, if_pos rfl]
    · by_cases hmem : r ∈ ids
      · rw [if_pos hmem, if_pos (List.mem_cons_of_mem i hmem), alookup_setRes, if_neg hri]
      · have : r ∉ i :: ids := by
          intro h
          rcases List.mem_cons.mp h with h | h
          · exact hri h
          · exact hmem h
        rw [if_neg hmem, if_neg this, alookup_setRes, if_neg hri]

theorem setAll_eq_map (m : List (Nat × Option Job)) (ids : List Nat) (v : Option Job) :
    setAll m ids v = m.map (fun p => if p.1 ∈ ids then (p.1, v) else p) := by
  induction ids generalizing m with
  | nil => simp [setAll]
  | cons i ids ih =>
    have step : setAll m (i :: ids) v = setAll (setRes m i v) ids v := rfl
    rw [step, ih, setRes, List.map_map]
    refine List.map_congr_left (fun p _ => ?_)
    by_cases hpi : p.1 = i
    · simp [hpi]
    · by_cases hmem : p.1 ∈ ids <;> simp [hpi, hmem, List.mem_cons]

/-! ## C8: `Agenda.release` performs no reservedness check -/

/-- Claim C8 as stated is false: `aFree`'s resource 0 holds no
reservation, yet `release([0])` succeeds silently (it is a total
operation and returns the agenda unchanged) instead of failing. -/
theorem release_free_succeeds_silently :
    alookup aFree.reservations 0 = some none ∧ Agenda.release aFree [0] = aFree := by
  decide

/-- Claim C8 (amended): `release(resource_ids)` clears every listed entry
unconditionally — it performs no check that the resources are currently
reserved, and releasing a free resource succeeds silently as a no-op. -/
theorem release_unchecked (a : Agenda) (ids : List Nat) :
    (Agenda.release a ids).reservations
        = a.reservations.map (fun p => if p.1 ∈ ids then (p.1, none) else p)
    ∧ ((∀ p ∈ a.reservations, p.1 ∈ ids → p.2 = none) → Agenda.release a ids = a) := by
  constructor
  · exact setAll_eq_map a.reservations ids none
  · intro hfree
    have h1 : setAll a.reservations ids none = a.reservations := by
      rw [setAll_eq_map]
      have hcongr : ∀ p ∈ a.reservations,
          (if p.1 ∈ ids then ((p.1 : Nat), (none : Option Job)) else p) = p := by
        intro p hp
        by_cases hmem : p.1 ∈ ids
        · have := hfree p hp hmem
          cases p with
          | mk k o => simp_all
        · simp [hmem]
      rw [List.map_congr_left hcongr]
      simp
    calc Agenda.release a ids = ⟨setAll a.reservations ids none⟩ := rfl
      _ = ⟨a.reservations⟩ := by rw [h1]
      _ = a := rfl

/-- Witness for `release_unchecked`: releasing the free resource of
`aFree` is a silent no-op. -/
theorem release_unchecked_witness : Agenda.release aFree [0] = aFree :=
  (release_unchecked aFree [0]).2 (by decide)

/-! ## C9: reserve / release / reserve round-trip -/

/-- Claim C9: from an agenda where `j`'s allocation is entirely free,
`reserve(j); release(j.allocation); reserve(j2)` with the same allocation
succeeds, and afterwards every resource of the allocation is reserved by
`j2`. -/
theorem reserve_release_reserve (a : Agenda) (j j2 : Job) (alloc : List Nat)
    (h1 : j.allocation = some alloc) (h2 : j2.allocation = some alloc)
    (hfree : ∀ r ∈ alloc, alookup a.reservations r = some none) :
    ∃ a1 a2, Agenda.reserve a j = some a1
      ∧ Agenda.reserve (Agenda.release a1 alloc) j2 = some a2
      ∧ ∀ r ∈ alloc, alookup a2.reservations r = some (some j2) := by
  have halloc : j.alloc = alloc := by simp [Job.alloc, h1]
  have halloc2 : j2.alloc = alloc := by simp [Job.alloc, h2]
  have hcond1 : (j.alloc).all (fun r => decide (alookup a.reservations r = some none)) = true := by
    rw [halloc, List.all_eq_true]
    intro r hr
    simpa using hfree r hr
  have hrel : ∀ r ∈ alloc,
      alookup (Agenda.release ⟨setAll a.reservations j.alloc (some j)⟩ alloc).reservations r
        = some none := by
    intro r hr
    show alookup (setAll (setAll a.reservations j.alloc (some j)) alloc none) r = some none
    rw [alookup_setAll, if_pos hr, halloc, alookup_setAll, if_pos hr, hfree r hr]
    rfl
  have hcond2 : (j2.alloc).all
      (fun r => decide (alookup (Agenda.release ⟨setAll a.reservations j.alloc (some j)⟩
        alloc).reservations r = some none)) = true := by
    rw [halloc2, List.all_eq_true]
    intro r hr
    simpa using hrel r hr
  refine ⟨⟨setAll a.reservations j.alloc (some j)⟩,
    ⟨setAll (Agenda.release ⟨setAll a.reservations j.alloc (some j)⟩ alloc).reservations
      j2.alloc (some j2)⟩, ?_, ?_, ?_⟩
  · rw [Agenda.reserve, if_pos hcond1]
  · rw [Agenda.reserve, if_pos hcond2]
  · intro r hr
    show alookup (setAll _ j2.alloc (some j2)) r = some (some j2)
    rw [halloc2, alookup_setAll, if_pos hr, hrel r hr]
    rfl

/-- Witness for `reserve_release_reserve` on a one-resource agenda. -/
theorem reserve_release_reserve_witness :
    ∃ a1 a2, Agenda.reserve aFree jW = some a1
      ∧ Agenda.reserve (Agenda.release a1 [0]) j2W = some a2
      ∧ ∀ r ∈ [0], alookup a2.reservations r = some (some j2W) :=
  reserve_release_reserve aFree jW j2W [0] rfl rfl (by decide)

/-! ## C3: per-resource progress values -/

theorem get_progress_entry (a : Agenda) (now : ℚ) (i : Nat) :
    (a.get_progress now)[i]? = (a.reservations[i]?).map (fun p => jobProgress now p.2) := by
  simp [Agenda.get_progress]

/-- Claim C3 as stated is false at these inputs: for the overrun running
job `jOver` (start 0, walltime 10) at `now = 20` the progress entry is
`-1`, which is negative where the claim requires clamping to `0`; and for
the running job `jInf` with infinite walltime the entry is `1` where the
claim requires `0`. -/
theorem get_progress_not_clamped :
    Agenda.get_progress aOver 20 = [-1] ∧ ((-1 : ℚ) < 0)
    ∧ Agenda.get_progress aInf 5 = [1] := by
  refine ⟨?_, by norm_num, ?_⟩
  · simp [Agenda.get_progress, jobProgress, aOver, jOver]
    norm_num
  · simp [Agenda.get_progress, jobProgress, aInf, jInf]

/-- Claim C3 (amended): per resource the progress value is `0` if the
resource is free; `1 − (now − start_time) / walltime` — with no clamping,
so `0` exactly at `now = start_time + walltime` and strictly negative
beyond it — if the reserving job is running with finite walltime; `1`
(not `0`) if the reserving job is running with infinite walltime; and `1`
if the resource is reserved by a job that is not running. -/
theorem get_progress_characterization (a : Agenda) (now : ℚ) (i rid : Nat)
    (res : Option Job) (h : a.reservations[i]? = some (rid, res)) :
    (res = none → (a.get_progress now)[i]? = some 0)
    ∧ (∀ j, res = some j → j.state ≠ .running → (a.get_progress now)[i]? = some 1)
    ∧ (∀ j, res = some j → j.state = .running → j.walltime = none →
        (a.get_progress now)[i]? = some 1)
    ∧ (∀ j w, res = some j → j.state = .running → j.walltime = some w →
        (a.get_progress now)[i]? = some (1 - (now - j.start_time) / w)
        ∧ (0 < w → now = j.start_time + w → (a.get_progress now)[i]? = some 0)
        ∧ (0 < w → j.start_time + w < now →
            ∃ q, (a.get_progress now)[i]? = some q ∧ q < 0)) := by
  have hb : (a.get_progress now)[i]? = some (jobProgress now res) := by
    rw [get_progress_entry, h]
    rfl
  refine ⟨?_, ?_, ?_, ?_⟩
  · rintro rfl
    rw [hb]
    simp [jobProgress]
  · rintro j rfl hnr
    rw [hb]
    simp [jobProgress, hnr]
  · rintro j rfl hr hw
    rw [hb]
    simp [jobProgress, hr, hw]
  · rintro j w rfl hr hw
    have hval : (a.get_progress now)[i]?
        = some (1 - (now - j.start_time) / w) := by
      rw [hb]
      simp [jobProgress, hr, hw]
    refine ⟨hval, ?_, ?_⟩
    · intro hwpos heq
      rw [hval, heq]
      have hw0 : w ≠ 0 := ne_of_gt hwpos
      have : (j.start_time + w - j.start_time) / w = 1 := by
        field_simp
      rw [this]
      norm_num
    · intro hwpos hlt
      refine ⟨1 - (now - j.start_time) / w, hval, ?_⟩
      have h1 : 1 < (now - j.start_time) / w := by
        rw [one_lt_div hwpos]
        linarith
      linarith

/-- Witness for `get_progress_characterization`: the overrun entry of
`aOver` at `now = 20` is strictly negative. -/
theorem get_progress_characterization_witness :
    ∃ q, (Agenda.get_progress aOver 20)[0]? = some q ∧ q < 0 :=
  ((get_progress_characterization aOver 20 0 0 (some jOver) rfl).2.2.2 jOver 10
    rfl rfl rfl).2.2 (by norm_num) (by norm_num [jOver])

/-! ## C2 and C4: the `JOB_KILLED` handler -/

/-- Claim C2 fails on the code (`on_job_killed` pops `data.job_id` on
every iteration and never appends to `completed`): with two running jobs
and `job_ids = [1, 2]`, `job_id = 1`, the handler aborts with a
`KeyError` on the second iteration instead of terminating both jobs; and
even for the single-id event `job_ids = [5]` the killed job is appended
to no cohort — `completed` stays empty — unlike the completion handler. -/
theorem on_job_killed_diverges :
    on_job_killed sKill2 ⟨[1, 2], 1⟩ = none
    ∧ (on_job_killed sKill1 ⟨[5], 5⟩).map (fun t => (t.completed, t.running))
        = some ([], []) := by
  decide

/-- Claim C4 fails on the code: `on_job_submitted` does preserve the
conservation law (each submission adds exactly one job to the cohorts),
but `on_job_killed` breaks it — killing the single running job of
`sKill1` drops the cohort sum from 1 to 0 while the number of submissions
seen is unchanged. -/
theorem job_killed_breaks_conservation :
    cohortSum sKill1 = 1
    ∧ (on_job_killed sKill1 ⟨[5], 5⟩).map cohortSum = some 0
    ∧ (∀ s d, cohortSum (on_job_submitted s d) = cohortSum s + 1) := by
  refine ⟨by decide, by decide, ?_⟩
  intro s d
  unfold on_job_submitted cohortSum rejected_count
  by_cases hbig : s.platform.length < d.job.res
  · simp [hbig, List.filter_append]
    omega
  · simp [hbig]
    omega

/-! ## C5: `allocate` failure behaviour -/

/-- Full case analysis of `allocate`: it either succeeds, fails before
any mutation (`JobNotFound`, `InsufficientResources`), or fails in
`reserve` after `job.set_allocation` has already rebound the queued
job's allocation. -/
theorem allocate_cases (s : RJMSState) (jid : Nat) (rids : Option (List Nat)) :
    (allocate s jid rids).2 = none
    ∨ allocate s jid rids = (s, some .JobNotFound)
    ∨ allocate s jid rids = (s, some .InsufficientResources)
    ∨ (∃ job ids, s.queue.find? (fun j => j.id == jid) = some job
        ∧ allocate s jid rids
          = ({ s with queue := s.queue.map (fun k =>
              if k.id == jid then { job with allocation := some ids } else k) },
             some .AlreadyReserved)) := by
  unfold allocate
  cases hfind : s.queue.find? (fun j => j.id == jid) with
  | none =>
    exact Or.inr (Or.inl rfl)
  | some job =>
    dsimp only
    split
    · split
      · exact Or.inr (Or.inr (Or.inr ⟨job, _, rfl, rfl⟩))
      · exact Or.inl rfl
    · exact Or.inr (Or.inr (Or.inl rfl))

/-- Claim C5 as stated is false: on `sAllocFail` (resource 0 already
reserved by another job) `allocate(1, [0])` fails with `AlreadyReserved`,
yet the queued job's allocation binding has been mutated — the queue is
not left exactly as it was. -/
theorem allocate_mutates_on_reserve_failure :
    (allocate sAllocFail 1 (some [0])).2 = some .AlreadyReserved
    ∧ (allocate sAllocFail 1 (some [0])).1.queue ≠ sAllocFail.queue := by
  decide

/-- Claim C5 (amended): a failed `allocate` leaves the agenda, the ready,
running and completed cohorts, the request log, the simulator and the
platform exactly as they were; on `JobNotFound` and
`InsufficientResources` the whole state is unchanged, but on an
`AlreadyReserved` failure the target job's allocation binding in the
queue has already been rebound by `set_allocation`. -/
theorem allocate_no_partial_commit (s : RJMSState) (jid : Nat) (rids : Option (List Nat))
    (e : RJMSErr) (h : (allocate s jid rids).2 = some e) :
    ((allocate s jid rids).1.agenda = s.agenda
      ∧ (allocate s jid rids).1.ready = s.ready
      ∧ (allocate s jid rids).1.running = s.running
      ∧ (allocate s jid rids).1.completed = s.completed
      ∧ (allocate s jid rids).1.requests = s.requests
      ∧ (allocate s jid rids).1.sim = s.sim
      ∧ (allocate s jid rids).1.platform = s.platform)
    ∧ (e ≠ .AlreadyReserved → (allocate s jid rids).1 = s)
    ∧ (e = .AlreadyReserved → ∃ job ids,
        s.queue.find? (fun j => j.id == jid) = some job
        ∧ (allocate s jid rids).1.queue = s.queue.map (fun k =>
            if k.id == jid then { job with allocation := some ids } else k)) := by
  rcases allocate_cases s jid rids with hc | hc | hc | ⟨job, ids, hfind, hc⟩
  · rw [hc] at h
    exact absurd h (by simp)
  · rw [hc] at h ⊢
    have he : e = .JobNotFound := by
      have := Option.some.inj h
      exact this.symm
    subst he
    exact ⟨⟨rfl, rfl, rfl, rfl, rfl, rfl, rfl⟩, fun _ => rfl, fun hcon => absurd hcon (by decide)⟩
  · rw [hc] at h ⊢
    have he : e = .InsufficientResources := by
      have := Option.some.inj h
      exact this.symm
    subst he
    exact ⟨⟨rfl, rfl, rfl, rfl, rfl, rfl, rfl⟩, fun _ => rfl, fun hcon => absurd hcon (by decide)⟩
  · rw [hc] at h ⊢
    have he : e = .AlreadyReserved := by
      have := Option.some.inj h
      exact this.symm
    subst he
    refine ⟨⟨rfl, rfl, rfl, rfl, rfl, rfl, rfl⟩, fun hne => absurd rfl hne, fun _ => ?_⟩
    exact ⟨job, ids, hfind, rfl⟩

/-- Witness for `allocate_no_partial_commit` at the concrete failing
call on `sAllocFail`. -/
theorem allocate_no_partial_commit_witness :
    (allocate sAllocFail 1 (some [0])).1.agenda = sAllocFail.agenda
    ∧ (allocate sAllocFail 1 (some [0])).1.ready = sAllocFail.ready :=
  ⟨((allocate_no_partial_commit sAllocFail 1 (some [0]) .AlreadyReserved (by decide)).1).1,
   ((allocate_no_partial_commit sAllocFail 1 (some [0]) .AlreadyReserved (by decide)).1).2.1⟩

/-! ## Field-preservation lemmas for the sweep and the drain -/

theorem initiate_go_fields (rs : List Resource) (rd : Bool) (v : List Nat) (s : RJMSState) :
    ((initiate_go rs rd v s).2.sim = s.sim)
    ∧ ((initiate_go rs rd v s).2.use_batsim = s.use_batsim)
    ∧ ((initiate_go rs rd v s).2.submitter_ended = s.submitter_ended)
    ∧ ((initiate_go rs rd v s).2.queue = s.queue)
    ∧ ((initiate_go rs rd v s).2.completed = s.completed)
    ∧ ((initiate_go rs rd v s).2.agenda = s.agenda)
    ∧ ((initiate_go rs rd v s).2.ready = s.ready)
    ∧ ((initiate_go rs rd v s).2.running = s.running) := by
  induction rs generalizing rd v s with
  | nil => exact ⟨rfl, rfl, rfl, rfl, rfl, rfl, rfl, rfl⟩
  | cons r rest ih =>
    unfold initiate_go
    by_cases hc : r.state ≠ .idle ∧ r.parent_id ∉ v
    · rw [if_pos hc]
      by_cases hs : r.state = .sleeping
      · rw [if_pos hs]
        exact ih _ _ (turn_on s r.parent_id)
      · rw [if_neg hs]
        exact ih _ _ s
    · rw [if_neg hc]
      exact ih _ _ s

theorem start_one_fields (s : RJMSState) (j : Job) :
    (start_one s j).sim = s.sim ∧ (start_one s j).use_batsim = s.use_batsim
    ∧ (start_one s j).submitter_ended = s.submitter_ended
    ∧ (start_one s j).queue = s.queue ∧ (start_one s j).completed = s.completed
    ∧ (start_one s j).agenda = s.agenda := by
  unfold start_one
  have hf := initiate_go_fields (get_resources s.platform j.alloc) true [] s
  by_cases hr : (initiate_resources s (get_resources s.platform j.alloc)).1 = true
  · rw [if_pos hr]
    exact ⟨hf.1, hf.2.1, hf.2.2.1, hf.2.2.2.1, hf.2.2.2.2.1, hf.2.2.2.2.2.1⟩
  · rw [if_neg hr]
    exact ⟨hf.1, hf.2.1, hf.2.2.1, hf.2.2.2.1, hf.2.2.2.2.1, hf.2.2.2.2.2.1⟩

theorem foldl_start_one_fields (l : List Job) (s : RJMSState) :
    ((l.foldl start_one s).sim = s.sim)
    ∧ ((l.foldl start_one s).use_batsim = s.use_batsim)
    ∧ ((l.foldl start_one s).submitter_ended = s.submitter_ended)
    ∧ ((l.foldl start_one s).queue = s.queue)
    ∧ ((l.foldl start_one s).completed = s.completed)
    ∧ ((l.foldl start_one s).agenda = s.agenda) := by
  induction l generalizing s with
  | nil => exact ⟨rfl, rfl, rfl, rfl, rfl, rfl⟩
  | cons j rest ih =>
    have h1 := start_one_fields s j
    have h2 := ih (start_one s j)
    exact ⟨h2.1.trans h1.1, h2.2.1.trans h1.2.1, h2.2.2.1.trans h1.2.2.1,
      h2.2.2.2.1.trans h1.2.2.2.1, h2.2.2.2.2.1.trans h1.2.2.2.2.1,
      h2.2.2.2.2.2.trans h1.2.2.2.2.2⟩

theorem start_ready_jobs_sim (s : RJMSState) : (start_ready_jobs s).sim = s.sim :=
  (foldl_start_one_fields s.ready s).1

theorem start_ready_jobs_use_batsim (s : RJMSState) :
    (start_ready_jobs s).use_batsim = s.use_batsim :=
  (foldl_start_one_fields s.ready s).2.1

theorem drainAux_id_of_stopped (n : Nat) (sim : SimState) (h : sim.running = false) :
    drainAux n sim = sim := by
  cases n with
  | zero => rfl
  | succ m =>
    unfold drainAux
    rw [if_neg]
    simp [h]

theorem drainAux_not_running (n : Nat) (sim : SimState) (h : sim.trace.length < n) :
    (drainAux n sim).running = false := by
  induction n generalizing sim with
  | zero => omega
  | succ m ih =>
    unfold drainAux
    by_cases hr : sim.running = true
    · rw [if_pos hr]
      cases htr : sim.trace with
      | nil =>
        have hstop : sim.proceed.running = false := by
          unfold SimState.proceed
          rw [htr]
        rw [drainAux_id_of_stopped m _ hstop]
        exact hstop
      | cons st rest =>
        apply ih
        unfold SimState.proceed
        rw [htr]
        simp only []
        rw [htr] at h
        simpa using Nat.lt_of_succ_lt_succ h
    · rw [if_neg (by simpa using hr)]
      simpa using hr

theorem drain_not_running (sim : SimState) : (sim.drain).running = false :=
  drainAux_not_running _ _ (Nat.lt_succ_self _)

theorem check_end_fields (t : RJMSState) :
    (check_end_of_simulation t).queue = t.queue
    ∧ (check_end_of_simulation t).ready = t.ready
    ∧ (check_end_of_simulation t).running = t.running
    ∧ (check_end_of_simulation t).submitter_ended = t.submitter_ended := by
  unfold check_end_of_simulation
  split
  · exact ⟨rfl, rfl, rfl, rfl⟩
  · exact ⟨rfl, rfl, rfl, rfl⟩

/-- After `proceed_post` on the Batsim backend, a state satisfying the
drain condition has a stopped simulator. -/
theorem proceed_post_drains (t : RJMSState) (hb : t.use_batsim = true)
    (hse : (proceed_post t).submitter_ended = true) (hq : (proceed_post t).queue = [])
    (hr : (proceed_post t).ready = []) (hrn : (proceed_post t).running = []) :
    (proceed_post t).sim.running = false := by
  have hpp : proceed_post t = check_end_of_simulation t := by
    unfold proceed_post
    rw [if_pos hb]
  rw [hpp] at hse hq hr hrn ⊢
  by_cases hcond : (t.submitter_ended = true ∧ t.sim.running = true
      ∧ t.ready.length = 0 ∧ t.running.length = 0 ∧ t.queue.length = 0)
  · have hceq : check_end_of_simulation t = { t with sim := t.sim.drain } := by
      unfold check_end_of_simulation
      rw [if_pos hcond]
    rw [hceq]
    exact drain_not_running t.sim
  · have hceq : check_end_of_simulation t = t := by
      unfold check_end_of_simulation
      rw [if_neg hcond]
    rw [hceq] at hse hq hr hrn ⊢
    cases hrunning : t.sim.running with
    | false => rfl
    | true =>
      exfalso
      apply hcond
      exact ⟨hse, hrunning, by simp [hr], by simp [hrn], by simp [hq]⟩

/-! ## C6: the end-of-simulation drain after `proceed_time` -/

/-- Claim C6 as stated is false: on the synthetic (grid) backend
(`use_batsim = false`), after `proceed_time` completes with
`submitter_ended` set and all cohorts empty, the controller does *not*
drive the simulation to its end — the simulator is still running. -/
theorem no_drain_on_grid_backend :
    sNoDrain.use_batsim = false
    ∧ (proceed_time sNoDrain 0).2 = none
    ∧ (proceed_time sNoDrain 0).1.submitter_ended = true
    ∧ (proceed_time sNoDrain 0).1.queue = []
    ∧ (proceed_time sNoDrain 0).1.ready = []
    ∧ (proceed_time sNoDrain 0).1.running = []
    ∧ (proceed_time sNoDrain 0).1.sim.running = true := by
  decide

/-- Claim C6 (amended): after a successful `proceed_time` on the *Batsim*
backend (`use_batsim = true`), if `submitter_ended` is set and the
`queue`, `ready` and `running` cohorts are all empty, the controller has
driven `proceed_simulation` until the adapter reports no-longer-running;
on the synthetic backend `proceed_time` performs no such drain. -/
theorem proceed_time_drains (s : RJMSState) (u : ℚ) (s' : RJMSState)
    (hb : s.use_batsim = true)
    (h : proceed_time s u = (s', none))
    (hse : s'.submitter_ended = true) (hq : s'.queue = [])
    (hr : s'.ready = []) (hrn : s'.running = []) :
    s'.sim.running = false := by
  unfold proceed_time at h
  split at h
  case isFalse =>
    injection h with h1 h2
    exact absurd h2 (by simp)
  case isTrue hrun =>
    have hub : ∀ t : RJMSState, t.use_batsim = s.use_batsim → t.use_batsim = true :=
      fun t ht => ht.trans hb
    split at h
    · split at h
      · -- bounded advance; h : (proceed_post s3, none) = (s', none)
        injection h with h1 h2
        subst h1
        exact proceed_post_drains _
          (hub _ (start_ready_jobs_use_batsim s)) hse hq hr hrn
      · injection h with h1 h2
        exact absurd h2 (by simp)
    · -- single-batch advance
      injection h with h1 h2
      subst h1
      exact proceed_post_drains _
        (hub _ (start_ready_jobs_use_batsim s)) hse hq hr hrn

/-- Witness for `proceed_time_drains`: on the Batsim backend the drain
actually runs and stops the simulator. -/
theorem proceed_time_drains_witness : (proceed_time sDrain 0).1.sim.running = false := by
  have hpair : proceed_time sDrain 0 = ((proceed_time sDrain 0).1, none) := by decide
  exact proceed_time_drains sDrain 0 (proceed_time sDrain 0).1 (by decide) hpair
    (by decide) (by decide) (by decide) (by decide)

/-! ## C7: `proceed_time` argument validation -/

/-- Claim C7 as stated is false: on the running state `sProc`
(`current_time = 5`), `proceed_time(-1)` does not fail with
`InvalidArgument` — `until < 0` falls into the `else` branch and a
single event batch is consumed (time advances to 6). -/
theorem proceed_time_negative_until_advances :
    sProc.sim.running = true
    ∧ ((-1 : ℚ) < 0)
    ∧ (proceed_time sProc (-1)).2 = none
    ∧ (proceed_time sProc (-1)).1.sim.time = 6 := by
  refine ⟨by decide, by decide, by decide, by decide⟩

/-- Claim C7 (amended): `proceed_time(until)` fails with `NotRunning`
(before any state change) whenever no simulation is in progress, and
fails with `InvalidArgument` — without advancing the simulator — exactly
when `0 < until ≤ current_time`; a non-positive `until` (including
negative values) is treated as the no-argument form and advances a single
event batch instead of failing. -/
theorem proceed_time_validation (s : RJMSState) (u : ℚ) :
    (s.sim.running = false → proceed_time s u = (s, some .NotRunning))
    ∧ (s.sim.running = true → 0 < u → u ≤ s.sim.time →
        (proceed_time s u).2 = some .InvalidArgument
        ∧ (proceed_time s u).1.sim = s.sim)
    ∧ (s.sim.running = true → u ≤ 0 → (proceed_time s u).2 = none) := by
  refine ⟨?_, ?_, ?_⟩
  · intro hstop
    unfold proceed_time
    split
    case isTrue hrun => exact absurd hrun (by simp [hstop])
    case isFalse => rfl
  · intro hrun hu hle
    unfold proceed_time
    split
    case isFalse hrun' => exact absurd hrun hrun'
    case isTrue =>
      have hnotlt : ¬ ((start_ready_jobs s).sim.time < u) := by
        rw [start_ready_jobs_sim s]
        exact not_lt.mpr hle
      simp only [if_pos hu, if_neg hnotlt]
      exact ⟨trivial, start_ready_jobs_sim s⟩
  · intro hrun hu
    unfold proceed_time
    split
    case isFalse hrun' => exact absurd hrun hrun'
    case isTrue =>
      rw [if_neg (not_lt.mpr hu)]

/-- Witness for `proceed_time_validation` at concrete calls: a stopped
controller rejects `proceed_time`, `until = 5 = current_time` is rejected
on `sProc`, and `until = -1` succeeds there. -/
theorem proceed_time_validation_witness :
    proceed_time sClosed 1 = (sClosed, some .NotRunning)
    ∧ (proceed_time sProc 5).2 = some .InvalidArgument
    ∧ (proceed_time sProc (-1)).2 = none :=
  ⟨(proceed_time_validation sClosed 1).1 (by decide),
   ((proceed_time_validation sProc 5).2.1 (by decide) (by decide) (by decide)).1,
   (proceed_time_validation sProc (-1)).2.2 (by decide) (by decide)⟩

/-! ## The `start_ready_jobs` sweep: flag computation -/

theorem initiate_go_false (rs : List Resource) (v : List Nat) (s : RJMSState) :
    (initiate_go rs false v s).1 = false := by
  induction rs generalizing v s with
  | nil => rfl
  | cons r rest ih =>
    unfold initiate_go
    by_cases hc : r.state ≠ .idle ∧ r.parent_id ∉ v
    · rw [if_pos hc]
      exact ih _ _
    · rw [if_neg hc]
      exact ih _ _

theorem initiate_go_true_iff (rs : List Resource) (v : List Nat) (s : RJMSState) :
    (initiate_go rs true v s).1 = true
      ↔ ∀ r ∈ rs, r.state = .idle ∨ r.parent_id ∈ v := by
  induction rs generalizing v s with
  | nil => simp [initiate_go]
  | cons r rest ih =>
    unfold initiate_go
    by_cases hc : r.state ≠ .idle ∧ r.parent_id ∉ v
    · rw [if_pos hc]
      constructor
      · intro h
        rw [initiate_go_false] at h
        exact absurd h (by simp)
      · intro h
        rcases h r (List.mem_cons_self r rest) with h1 | h1
        · exact absurd h1 hc.1
        · exact absurd h1 hc.2
    · rw [if_neg hc]
      have hr : r.state = .idle ∨ r.parent_id ∈ v := by
        by_cases hidle : r.state = .idle
        · exact Or.inl hidle
        · by_cases hmem : r.parent_id ∈ v
          · exact Or.inr hmem
          · exact absurd ⟨hidle, hmem⟩ hc
      rw [ih]
      constructor
      · intro h x hx
        rcases List.mem_cons.mp hx with hx1 | hx1
        · exact hx1 ▸ hr
        · exact h x hx1
      · intro h x hx
        exact h x (List.mem_cons_of_mem r hx)

theorem initiate_go_true_state (rs : List Resource) (v : List Nat) (s : RJMSState)
    (h : (initiate_go rs true v s).1 = true) :
    (initiate_go rs true v s).2 = s := by
  induction rs generalizing v s with
  | nil => rfl
  | cons r rest ih =>
    unfold initiate_go at h ⊢
    by_cases hc : r.state ≠ .idle ∧ r.parent_id ∉ v
    · rw [if_pos hc] at h
      rw [initiate_go_false] at h
      exact absurd h (by simp)
    · rw [if_neg hc] at h ⊢
      exact ih _ _ h

theorem initiate_resources_true_iff (s : RJMSState) (rs : List Resource) :
    (initiate_resources s rs).1 = true ↔ ∀ r ∈ rs, r.state = .idle := by
  unfold initiate_resources
  rw [initiate_go_true_iff]
  simp

theorem initiate_resources_true_state (s : RJMSState) (rs : List Resource)
    (h : (initiate_resources s rs).1 = true) : (initiate_resources s rs).2 = s :=
  initiate_go_true_state rs [] s h

theorem mem_get_resources {plat : List Resource} {ids : List Nat} {r : Resource} :
    r ∈ get_resources plat ids
      ↔ ∃ i ∈ ids, plat.find? (fun x => x.id = i) = some r := by
  unfold get_resources
  rw [List.mem_filterMap]

/-- The code's start condition as `rjms.py` computes it equals the
"every allocated resource is idle" predicate (resources are looked up by
id; `hex` rules out dangling allocation entries). -/
theorem initiate_flag_iff_allIdle (s : RJMSState) (alloc : List Nat)
    (hex : ∀ rid ∈ alloc, ∃ r ∈ s.platform, r.id = rid) :
    (initiate_resources s (get_resources s.platform alloc)).1 = true
      ↔ allIdle s.platform alloc := by
  rw [initiate_resources_true_iff]
  constructor
  · intro h rid hrid
    rcases hex rid hrid with ⟨r0, hr0, hid0⟩
    have hfs : (s.platform.find? (fun x => x.id = rid)).isSome := by
      rw [List.find?_isSome]
      exact ⟨r0, hr0, by simp [hid0]⟩
    rcases Option.isSome_iff_exists.mp hfs with ⟨r1, hr1⟩
    have hmem : r1 ∈ get_resources s.platform alloc :=
      mem_get_resources.mpr ⟨rid, hrid, hr1⟩
    unfold stateOf
    rw [hr1]
    simp [h r1 hmem]
  · intro h r hr
    rcases mem_get_resources.mp hr with ⟨i, hi, hfind⟩
    have := h i hi
    unfold stateOf at this
    rw [hfind] at this
    simpa using this

/-! ## The sweep: per-resource state evolution -/

/-- How a resource's state can change while the sweep works on *other*
jobs: it is untouched, or its sleeping host has been woken. -/
def stepR (a b : Option ResourceState) : Prop :=
  b = a ∨ (a = some .sleeping ∧ b = some .switching_on)

theorem stepR_refl (a : Option ResourceState) : stepR a a := Or.inl rfl

theorem stepR_trans {a b c : Option ResourceState} (h1 : stepR a b) (h2 : stepR b c) :
    stepR a c := by
  rcases h1 with h1 | ⟨ha, hb⟩
  · rcases h2 with h2 | ⟨hb, hc⟩
    · exact Or.inl (h2.trans h1)
    · exact Or.inr ⟨h1 ▸ hb, hc⟩
  · rcases h2 with h2 | ⟨hb2, hc⟩
    · exact Or.inr ⟨ha, h2.trans hb⟩
    · rw [hb] at hb2
      exact absurd (Option.some.inj hb2) (by decide)

theorem stepR_idle_iff {a b : Option ResourceState} (h : stepR a b) :
    b = some .idle ↔ a = some .idle := by
  rcases h with h | ⟨ha, hb⟩
  · rw [h]
  · rw [ha, hb]
    constructor <;> (intro hx; exact absurd (Option.some.inj hx) (by decide))

theorem stepR_computing {a b : Option ResourceState} (h : stepR a b)
    (ha : a = some .computing) : b = some .computing := by
  rcases h with h | ⟨ha2, hb⟩
  · rw [h, ha]
  · rw [ha] at ha2
    exact absurd (Option.some.inj ha2) (by decide)

theorem stateOf_map_of_id_preserved (p : List Resource) (f : Resource → Resource)
    (hid : ∀ r, (f r).id = r.id) (rid : Nat) :
    stateOf (p.map f) rid
      = (p.find? (fun x => x.id = rid)).map (fun r => (f r).state) := by
  unfold stateOf
  rw [List.find?_map]
  have hp : ((fun x => decide (x.id = rid)) ∘ f) = (fun x => decide (x.id = rid)) := by
    funext r
    simp [hid r]
  rw [hp, Option.map_map]
  rfl

theorem stateOf_eq_some_state {p : List Resource} {rid : Nat} {r : Resource}
    (hfind : p.find? (fun x => x.id = rid) = some r) :
    stateOf p rid = some r.state := by
  unfold stateOf
  rw [hfind]
  rfl

theorem turn_on_stateOf (s : RJMSState) (hid rid : Nat) :
    stepR (stateOf s.platform rid) (stateOf (turn_on s hid).platform rid) := by
  have hids : ∀ r : Resource,
      ((if r.parent_id = hid ∧ r.state = .sleeping
        then { r with state := ResourceState.switching_on } else r) : Resource).id = r.id := by
    intro r
    by_cases hc : r.parent_id = hid ∧ r.state = .sleeping <;> simp [hc]
  unfold turn_on
  rw [stateOf_map_of_id_preserved _ _ hids rid]
  cases hfind : s.platform.find? (fun x => x.id = rid) with
  | none =>
    unfold stateOf
    rw [hfind]
    exact stepR_refl _
  | some r =>
    rw [stateOf_eq_some_state hfind]
    by_cases hc : r.parent_id = hid ∧ r.state = .sleeping
    · exact Or.inr ⟨by rw [hc.2], by simp [hc]⟩
    · exact Or.inl (by simp [hc])

theorem initiate_go_stateOf (rs : List Resource) (rd : Bool) (v : List Nat)
    (s : RJMSState) (rid : Nat) :
    stepR (stateOf s.platform rid) (stateOf (initiate_go rs rd v s).2.platform rid) := by
  induction rs generalizing rd v s with
  | nil => exact stepR_refl _
  | cons r rest ih =>
    unfold initiate_go
    by_cases hc : r.state ≠ .idle ∧ r.parent_id ∉ v
    · rw [if_pos hc]
      by_cases hs : r.state = .sleeping
      · rw [if_pos hs]
        exact stepR_trans (turn_on_stateOf s r.parent_id rid) (ih _ _ _)
      · rw [if_neg hs]
        exact ih _ _ _
    · rw [if_neg hc]
      exact ih _ _ _

theorem initiate_go_platform_ids (rs : List Resource) (rd : Bool) (v : List Nat)
    (s : RJMSState) :
    (initiate_go rs rd v s).2.platform.map Resource.id = s.platform.map Resource.id := by
  induction rs generalizing rd v s with
  | nil => rfl
  | cons r rest ih =>
    unfold initiate_go
    by_cases hc : r.state ≠ .idle ∧ r.parent_id ∉ v
    · rw [if_pos hc]
      by_cases hs : r.state = .sleeping
      · rw [if_pos hs, ih]
        unfold turn_on
        rw [List.map_map]
        refine List.map_congr_left (fun r0 _ => ?_)
        by_cases hc0 : r0.parent_id = r.parent_id ∧ r0.state = .sleeping <;> simp [hc0]
      · rw [if_neg hs]
        exact ih _ _ _
    · rw [if_neg hc]
      exact ih _ _ _

theorem initiate_go_requests (rs : List Resource) (rd : Bool) (v : List Nat)
    (s : RJMSState) (jid : Nat) (alloc : List Nat) :
    (Request.execute jid alloc ∈ (initiate_go rs rd v s).2.requests
      ↔ Request.execute jid alloc ∈ s.requests) := by
  induction rs generalizing rd v s with
  | nil => exact Iff.rfl
  | cons r rest ih =>
    unfold initiate_go
    by_cases hc : r.state ≠ .idle ∧ r.parent_id ∉ v
    · rw [if_pos hc]
      by_cases hs : r.state = .sleeping
      · rw [if_pos hs, ih]
        unfold turn_on
        simp
      · rw [if_neg hs]
        exact ih _ _ _
    · rw [if_neg hc]
      exact ih _ _ _

/-! ## Association-list and eraseP helpers -/

theorem alookup_append_of_none {β : Type} {l1 : List (Nat × β)} (l2 : List (Nat × β))
    (k : Nat) (h : alookup l1 k = none) : alookup (l1 ++ l2) k = alookup l2 k := by
  induction l1 with
  | nil => rfl
  | cons p t ih =>
    by_cases hp : p.1 = k
    · rw [alookup, if_pos hp] at h
      exact absurd h (by simp)
    · rw [List.cons_append, alookup, if_neg hp]
      rw [alookup, if_neg hp] at h
      exact ih h

theorem alookup_append_of_some {β : Type} {l1 : List (Nat × β)} (l2 : List (Nat × β))
    {k : Nat} {v : β} (h : alookup l1 k = some v) : alookup (l1 ++ l2) k = some v := by
  induction l1 with
  | nil => exact absurd h (by simp [alookup])
  | cons p t ih =>
    by_cases hp : p.1 = k
    · rw [alookup, if_pos hp] at h
      rw [List.cons_append, alookup, if_pos hp]
      exact h
    · rw [alookup, if_neg hp] at h
      rw [List.cons_append, alookup, if_neg hp]
      exact ih h

theorem alookup_singleton_ne {β : Type} {k a : Nat} (v : β) (h : ¬ a = k) :
    alookup [(a, v)] k = none := by
  simp [alookup, h]

theorem mem_eraseP_of_pred_false {α : Type} {p : α → Bool} {x : α} (hx : p x = false)
    (l : List α) : x ∈ l.eraseP p ↔ x ∈ l := by
  induction l with
  | nil => simp
  | cons h t ih =>
    by_cases hph : p h = true
    · rw [List.eraseP_cons_of_pos hph]
      constructor
      · intro hxt
        exact List.mem_cons_of_mem _ hxt
      · intro hxc
        rcases List.mem_cons.mp hxc with hxh | hxt
        · rw [hxh, hph] at hx
          exact absurd hx (by simp)
        · exact hxt
    · rw [List.eraseP_cons_of_neg (by simpa using hph)]
      constructor
      · intro hxc
        rcases List.mem_cons.mp hxc with hxh | hxt
        · exact hxh ▸ List.mem_cons_self _ _
        · exact List.mem_cons_of_mem _ (ih.mp hxt)
      · intro hxc
        rcases List.mem_cons.mp hxc with hxh | hxt
        · exact hxh ▸ List.mem_cons_self _ _
        · exact List.mem_cons_of_mem _ (ih.mpr hxt)

theorem not_mem_eraseP_self {l : List Job} {j : Job}
    (hnd : (l.map Job.id).Nodup) : j ∉ l.eraseP (fun k => k.id == j.id) := by
  induction l with
  | nil => simp
  | cons h t ih =>
    rw [List.map_cons, List.nodup_cons] at hnd
    by_cases hph : (h.id == j.id) = true
    · have herase : List.eraseP (fun k => k.id == j.id) (h :: t) = t :=
        List.eraseP_cons_of_pos hph
      rw [herase]
      intro hmem
      have hmap : j.id ∈ t.map Job.id := List.mem_map.mpr ⟨j, hmem, rfl⟩
      have hj : h.id = j.id := by simpa using hph
      exact hnd.1 (hj ▸ hmap)
    · have herase : List.eraseP (fun k => k.id == j.id) (h :: t)
          = h :: List.eraseP (fun k => k.id == j.id) t :=
        List.eraseP_cons_of_neg (by simpa using hph)
      rw [herase]
      intro hmem
      rcases List.mem_cons.mp hmem with hj | hmem2
      · rw [hj] at hph
        simp at hph
      · exact ih hnd.2 hmem2

theorem find?_id_unique {plat : List Resource} (hnd : (plat.map Resource.id).Nodup)
    {r : Resource} (hr : r ∈ plat) :
    plat.find? (fun x => x.id = r.id) = some r := by
  induction plat with
  | nil => simp at hr
  | cons h t ih =>
    rw [List.map_cons, List.nodup_cons] at hnd
    by_cases hh : h.id = r.id
    · rw [List.find?_cons_of_pos _ (by simpa using hh)]
      rcases List.mem_cons.mp hr with hre | hrt
      · rw [hre]
      · exfalso
        have hmap : r.id ∈ t.map Resource.id := List.mem_map.mpr ⟨r, hrt, rfl⟩
        exact hnd.1 (hh ▸ hmap)
    · rw [List.find?_cons_of_neg _ (by simpa using hh)]
      apply ih hnd.2
      rcases List.mem_cons.mp hr with hre | hrt
      · exact absurd (hre ▸ rfl : h.id = r.id) hh
      · exact hrt

/-! ## The sweep: one-step and folded evolution -/

theorem start_one_of_flag_true (s : RJMSState) (j : Job)
    (hflag : (initiate_resources s (get_resources s.platform j.alloc)).1 = true) :
    start_one s j = { s with
      platform := s.platform.map (fun (r : Resource) =>
        if r.id ∈ j.alloc then { r with state := .computing } else r),
      requests := s.requests ++ [.execute j.id j.alloc],
      ready := s.ready.eraseP (fun k => k.id == j.id),
      running := s.running ++ [(j.id, job_start j s.sim.time)] } := by
  unfold start_one
  rw [if_pos hflag, initiate_resources_true_state s _ hflag]

theorem start_one_of_flag_false (s : RJMSState) (j : Job)
    (hflag : ¬ (initiate_resources s (get_resources s.platform j.alloc)).1 = true) :
    start_one s j = (initiate_resources s (get_resources s.platform j.alloc)).2 := by
  unfold start_one
  rw [if_neg hflag]

theorem computing_map_id_preserved (alloc : List Nat) :
    ∀ r : Resource,
      ((if r.id ∈ alloc then { r with state := ResourceState.computing }
        else r) : Resource).id = r.id := by
  intro r
  by_cases hc : r.id ∈ alloc <;> simp [hc]

theorem computing_map_stateOf_not_mem (p : List Resource) (alloc : List Nat) (rid : Nat)
    (hrid : rid ∉ alloc) :
    stateOf (p.map (fun (r : Resource) =>
        if r.id ∈ alloc then { r with state := .computing } else r)) rid
      = stateOf p rid := by
  rw [stateOf_map_of_id_preserved _ _ (computing_map_id_preserved alloc) rid]
  cases hfind : p.find? (fun x => x.id = rid) with
  | none =>
    unfold stateOf
    rw [hfind]
    rfl
  | some r =>
    rw [stateOf_eq_some_state hfind]
    have hid : r.id = rid := by simpa using List.find?_some hfind
    have hnot : r.id ∉ alloc := by
      rw [hid]
      exact hrid
    simp [hnot]

theorem computing_map_stateOf_mem (p : List Resource) (alloc : List Nat) (rid : Nat)
    (hmem : rid ∈ alloc) {r : Resource}
    (hfind : p.find? (fun x => x.id = rid) = some r) :
    stateOf (p.map (fun (r : Resource) =>
        if r.id ∈ alloc then { r with state := .computing } else r)) rid
      = some .computing := by
  rw [stateOf_map_of_id_preserved _ _ (computing_map_id_preserved alloc) rid, hfind]
  have hid : r.id = rid := by simpa using List.find?_some hfind
  have hin : r.id ∈ alloc := by
    rw [hid]
    exact hmem
  simp [hin]

/-- Processing one *other* job `k` (different id, disjoint allocation)
moves the tracked job's world only in benign ways: its resources evolve
by `stepR`, its `running` entry, `ready` membership and `execute` request
are untouched, and the platform keeps its ids. -/
theorem start_one_evol (s : RJMSState) (k : Job) (jid : Nat) (alloc : List Nat)
    (hk : k.id ≠ jid) (hdisj : ∀ x ∈ k.alloc, x ∉ alloc) :
    (∀ rid ∈ alloc, stepR (stateOf s.platform rid) (stateOf (start_one s k).platform rid))
    ∧ alookup (start_one s k).running jid = alookup s.running jid
    ∧ ((start_one s k).ready.Sublist s.ready)
    ∧ (∀ j0 : Job, j0.id = jid → (j0 ∈ (start_one s k).ready ↔ j0 ∈ s.ready))
    ∧ (Request.execute jid alloc ∈ (start_one s k).requests
        ↔ Request.execute jid alloc ∈ s.requests)
    ∧ ((start_one s k).platform.map Resource.id = s.platform.map Resource.id) := by
  have hfields := initiate_go_fields (get_resources s.platform k.alloc) true [] s
  by_cases hflag : (initiate_resources s (get_resources s.platform k.alloc)).1 = true
  · rw [start_one_of_flag_true s k hflag]
    refine ⟨?_, ?_, ?_, ?_, ?_, ?_⟩
    · intro rid hrid
      have hrid_not : rid ∉ k.alloc := fun hmem => hdisj rid hmem hrid
      rw [computing_map_stateOf_not_mem s.platform k.alloc rid hrid_not]
      exact stepR_refl _
    · cases hlk : alookup s.running jid with
      | none =>
        rw [alookup_append_of_none _ _ hlk]
        exact alookup_singleton_ne _ (fun h => hk h)
      | some v =>
        exact alookup_append_of_some _ hlk
    · exact List.eraseP_sublist _
    · intro j0 hj0
      apply mem_eraseP_of_pred_false
      have hne : ¬ j0.id = k.id := by
        rw [hj0]
        exact fun h => hk h.symm
      simpa using hne
    · rw [List.mem_append]
      constructor
      · intro h
        rcases h with h | h
        · exact h
        · exfalso
          have heq := List.mem_singleton.mp h
          have : jid = k.id := by
            injection heq with h1 h2
          exact hk this.symm
      · intro h
        exact Or.inl h
    · rw [List.map_map]
      exact List.map_congr_left (fun r0 _ => computing_map_id_preserved k.alloc r0)
  · rw [start_one_of_flag_false s k hflag]
    unfold initiate_resources
    refine ⟨?_, ?_, ?_, ?_, ?_, ?_⟩
    · intro rid _
      exact initiate_go_stateOf _ _ _ _ _
    · rw [hfields.2.2.2.2.2.2.2]
    · rw [hfields.2.2.2.2.2.2.1]
    · intro j0 _
      rw [hfields.2.2.2.2.2.2.1]
    · exact initiate_go_requests _ _ _ _ _ _
    · exact initiate_go_platform_ids _ _ _ _

theorem foldl_start_one_evol (ks : List Job) (s : RJMSState) (jid : Nat) (alloc : List Nat)
    (hks : ∀ k ∈ ks, k.id ≠ jid ∧ ∀ x ∈ k.alloc, x ∉ alloc) :
    (∀ rid ∈ alloc,
        stepR (stateOf s.platform rid) (stateOf (ks.foldl start_one s).platform rid))
    ∧ alookup (ks.foldl start_one s).running jid = alookup s.running jid
    ∧ ((ks.foldl start_one s).ready.Sublist s.ready)
    ∧ (∀ j0 : Job, j0.id = jid → (j0 ∈ (ks.foldl start_one s).ready ↔ j0 ∈ s.ready))
    ∧ (Request.execute jid alloc ∈ (ks.foldl start_one s).requests
        ↔ Request.execute jid alloc ∈ s.requests)
    ∧ ((ks.foldl start_one s).platform.map Resource.id = s.platform.map Resource.id) := by
  induction ks generalizing s with
  | nil =>
    exact ⟨fun _ _ => stepR_refl _, rfl, List.Sublist.refl _, fun _ _ => Iff.rfl,
      Iff.rfl, rfl⟩
  | cons k rest ih =>
    have hk := hks k (List.mem_cons_self _ _)
    have h1 := start_one_evol s k jid alloc hk.1 hk.2
    have h2 := ih (start_one s k) (fun k2 hk2 => hks k2 (List.mem_cons_of_mem _ hk2))
    rw [List.foldl_cons]
    exact ⟨fun rid hrid => stepR_trans (h1.1 rid hrid) (h2.1 rid hrid),
      h2.2.1.trans h1.2.1,
      h2.2.2.1.trans h1.2.2.1,
      fun j0 hj0 => (h2.2.2.2.1 j0 hj0).trans (h1.2.2.2.1 j0 hj0),
      (h2.2.2.2.2.1).trans h1.2.2.2.2.1,
      h2.2.2.2.2.2.trans h1.2.2.2.2.2⟩


/-! ## Host readiness versus the code's idle check -/

theorem ne_of_nodup_split (pre post : List Job) (j : Job)
    (hnd : ((pre ++ j :: post).map Job.id).Nodup) :
    (∀ k ∈ pre, k.id ≠ j.id) ∧ (∀ k ∈ post, k.id ≠ j.id) := by
  rw [List.map_append, List.map_cons, List.nodup_append] at hnd
  obtain ⟨h1, h2, h3⟩ := hnd
  rw [List.nodup_cons] at h2
  constructor
  · intro k hk he
    exact h3 (List.mem_map.mpr ⟨k, hk, rfl⟩)
      (by rw [he]; exact List.mem_cons_self _ _)
  · intro k hk he
    exact h2.1 (by rw [← he]; exact List.mem_map.mpr ⟨k, hk, rfl⟩)

/-- Under the reachable-state invariants — platform ids unique, every
allocated id present, allocated (reserved, unstarted) resources not
computing, and power-transition states uniform within a host — the
code's "all allocated resources idle" check coincides with the spec's
"every parenting host is ready (idle or computing)". -/
theorem allIdle_iff_hostsReady (plat : List Resource) (alloc : List Nat)
    (hnodup : (plat.map Resource.id).Nodup)
    (hex : ∀ rid ∈ alloc, ∃ r ∈ plat, r.id = rid)
    (hnc : ∀ r ∈ plat, r.id ∈ alloc → r.state ≠ .computing)
    (hcoh : ∀ r ∈ plat, ∀ r2 ∈ plat, r.parent_id = r2.parent_id → r.state = .idle →
        r2.state = .idle ∨ r2.state = .computing) :
    allIdle plat alloc ↔ allocHostsReady plat alloc := by
  constructor
  · intro hall r hr hrid
    have hfind : plat.find? (fun x => x.id = r.id) = some r := find?_id_unique hnodup hr
    have hst : stateOf plat r.id = some r.state := stateOf_eq_some_state hfind
    have hidle : r.state = .idle := by
      have hh := hall r.id hrid
      rw [hst] at hh
      exact Option.some.inj hh
    intro r2 hr2 hpar
    exact hcoh r hr r2 hr2 hpar.symm hidle
  · intro hready rid hrid
    rcases hex rid hrid with ⟨r, hr, hid⟩
    have hhost := hready r hr (by rw [hid]; exact hrid)
    have hr_state := hhost r hr rfl
    have hnotc := hnc r hr (by rw [hid]; exact hrid)
    have hidle : r.state = .idle := by
      rcases hr_state with h | h
      · exact h
      · exact absurd h hnotc
    have hfind : plat.find? (fun x => x.id = rid) = some r := by
      have hf := find?_id_unique hnodup hr
      rw [hid] at hf
      exact hf
    rw [stateOf_eq_some_state hfind, hidle]

/-! ## The main sweep lemma -/

/-- What one `start_ready_jobs` sweep does to a distinguished ready job
`j`, phrased against the code's start condition (`allIdle`): if all of
`j`'s allocated resources are idle, `j` is started — its hosts are marked
computing, `start_time` is bound to the current time, `execute_job` is
issued, and it moves from `ready` to `running`; otherwise it stays in
`ready` and is not started. -/
theorem sweep_main (s : RJMSState) (j : Job) (alloc : List Nat)
    (ha : j.allocation = some alloc)
    (hj : j ∈ s.ready)
    (hnodup : (s.ready.map Job.id).Nodup)
    (hdisj : ∀ k ∈ s.ready, k.id ≠ j.id → ∀ x ∈ k.alloc, x ∉ alloc)
    (hex : ∀ rid ∈ alloc, ∃ r ∈ s.platform, r.id = rid)
    (hrun0 : alookup s.running j.id = none) :
    (allIdle s.platform alloc →
        alookup (start_ready_jobs s).running j.id = some (job_start j s.sim.time)
        ∧ Request.execute j.id alloc ∈ (start_ready_jobs s).requests
        ∧ (∀ rid ∈ alloc, stateOf (start_ready_jobs s).platform rid = some .computing)
        ∧ j ∉ (start_ready_jobs s).ready)
    ∧ (¬ allIdle s.platform alloc →
        alookup (start_ready_jobs s).running j.id = none
        ∧ j ∈ (start_ready_jobs s).ready) := by
  obtain ⟨pre, post, hsplit⟩ := List.append_of_mem hj
  have hjalloc : j.alloc = alloc := by simp [Job.alloc, ha]
  obtain ⟨hne_pre, hne_post⟩ := ne_of_nodup_split pre post j (by rw [← hsplit]; exact hnodup)
  have hpre_hyp : ∀ k ∈ pre, k.id ≠ j.id ∧ ∀ x ∈ k.alloc, x ∉ alloc := fun k hk =>
    ⟨hne_pre k hk,
     hdisj k (by rw [hsplit]; exact List.mem_append_left _ hk) (hne_pre k hk)⟩
  have hpost_hyp : ∀ k ∈ post, k.id ≠ j.id ∧ ∀ x ∈ k.alloc, x ∉ alloc := fun k hk =>
    ⟨hne_post k hk,
     hdisj k (by
       rw [hsplit]
       exact List.mem_append_right _ (List.mem_cons_of_mem _ hk)) (hne_post k hk)⟩
  have hfold : start_ready_jobs s
      = post.foldl start_one (start_one (pre.foldl start_one s) j) := by
    unfold start_ready_jobs
    rw [hsplit, List.foldl_append, List.foldl_cons]
  have E1 := foldl_start_one_evol pre s j.id alloc hpre_hyp
  have hsim1 : (pre.foldl start_one s).sim = s.sim := (foldl_start_one_fields pre s).1
  have hiff : allIdle (pre.foldl start_one s).platform alloc ↔ allIdle s.platform alloc := by
    constructor
    · intro h rid hrid
      exact (stepR_idle_iff (E1.1 rid hrid)).mp (h rid hrid)
    · intro h rid hrid
      exact (stepR_idle_iff (E1.1 rid hrid)).mpr (h rid hrid)
  have hex1 : ∀ rid ∈ alloc, ∃ r ∈ (pre.foldl start_one s).platform, r.id = rid := by
    intro rid hrid
    rcases hex rid hrid with ⟨r, hr, hid⟩
    have hmem : rid ∈ (pre.foldl start_one s).platform.map Resource.id := by
      rw [E1.2.2.2.2.2]
      exact List.mem_map.mpr ⟨r, hr, hid⟩
    rcases List.mem_map.mp hmem with ⟨r2, hr2, hid2⟩
    exact ⟨r2, hr2, hid2⟩
  have hflag_iff : (initiate_resources (pre.foldl start_one s)
      (get_resources (pre.foldl start_one s).platform j.alloc)).1 = true
      ↔ allIdle s.platform alloc := by
    rw [hjalloc]
    rw [initiate_flag_iff_allIdle (pre.foldl start_one s) alloc hex1]
    exact hiff
  have E2 := foldl_start_one_evol post (start_one (pre.foldl start_one s) j) j.id alloc
    hpost_hyp
  constructor
  · intro hall
    have hflag := hflag_iff.mpr hall
    have hnone : alookup (pre.foldl start_one s).running j.id = none := by
      rw [E1.2.1]
      exact hrun0
    have hs2run : alookup (start_one (pre.foldl start_one s) j).running j.id
        = some (job_start j s.sim.time) := by
      rw [start_one_of_flag_true _ _ hflag]
      show alookup ((pre.foldl start_one s).running
        ++ [(j.id, job_start j (pre.foldl start_one s).sim.time)]) j.id
        = some (job_start j s.sim.time)
      rw [hsim1, alookup_append_of_none _ _ hnone]
      simp [alookup]
    have hs2req : Request.execute j.id alloc
        ∈ (start_one (pre.foldl start_one s) j).requests := by
      rw [start_one_of_flag_true _ _ hflag]
      show Request.execute j.id alloc
        ∈ (pre.foldl start_one s).requests ++ [Request.execute j.id j.alloc]
      rw [hjalloc]
      exact List.mem_append_right _ (List.mem_singleton.mpr rfl)
    have hs2plat : ∀ rid ∈ alloc,
        stateOf (start_one (pre.foldl start_one s) j).platform rid = some .computing := by
      intro rid hrid
      have hsome : ∃ r, (pre.foldl start_one s).platform.find?
          (fun x => x.id = rid) = some r := by
        have h1 := (hiff.mpr hall) rid hrid
        unfold stateOf at h1
        cases hf : (pre.foldl start_one s).platform.find? (fun x => x.id = rid) with
        | none =>
          rw [hf] at h1
          exact absurd h1 (by simp)
        | some r => exact ⟨r, rfl⟩
      rcases hsome with ⟨r, hf⟩
      rw [start_one_of_flag_true _ _ hflag]
      show stateOf ((pre.foldl start_one s).platform.map (fun (r : Resource) =>
        if r.id ∈ j.alloc then { r with state := .computing } else r)) rid
        = some .computing
      rw [hjalloc]
      exact computing_map_stateOf_mem _ alloc rid hrid hf
    have hs2ready : j ∉ (start_one (pre.foldl start_one s) j).ready := by
      rw [start_one_of_flag_true _ _ hflag]
      show j ∉ (pre.foldl start_one s).ready.eraseP (fun k => k.id == j.id)
      exact not_mem_eraseP_self (hnodup.sublist (E1.2.2.1.map Job.id))
    rw [hfold]
    refine ⟨?_, ?_, ?_, ?_⟩
    · rw [E2.2.1]
      exact hs2run
    · exact (E2.2.2.2.2.1).mpr hs2req
    · intro rid hrid
      exact stepR_computing (E2.1 rid hrid) (hs2plat rid hrid)
    · intro hmem
      exact hs2ready (E2.2.2.1.subset hmem)
  · intro hnall
    have hflag : ¬ (initiate_resources (pre.foldl start_one s)
        (get_resources (pre.foldl start_one s).platform j.alloc)).1 = true :=
      fun h => hnall (hflag_iff.mp h)
    have hfields2 := initiate_go_fields
      (get_resources (pre.foldl start_one s).platform j.alloc) true []
      (pre.foldl start_one s)
    have hs2run : alookup (start_one (pre.foldl start_one s) j).running j.id = none := by
      rw [start_one_of_flag_false _ _ hflag]
      unfold initiate_resources
      rw [hfields2.2.2.2.2.2.2.2, E1.2.1]
      exact hrun0
    have hs2ready : j ∈ (start_one (pre.foldl start_one s) j).ready := by
      rw [start_one_of_flag_false _ _ hflag]
      unfold initiate_resources
      rw [hfields2.2.2.2.2.2.2.1]
      exact (E1.2.2.2.1 j rfl).mpr hj
    rw [hfold]
    constructor
    · rw [E2.2.1]
      exact hs2run
    · exact (E2.2.2.2.1 j rfl).mpr hs2ready

/-! ## C1: the sweep starts a ready job iff its hosts are ready -/

/-- Claim C1: during a `start_ready_jobs` sweep, a job of the ready
cohort is started — every allocated resource marked computing,
`start_time` bound to the current time, `execute_job` issued, and the job
moved from `ready` to `running` — if and only if every host parenting one
of its allocated resources is ready (idle or computing); otherwise it
stays in `ready`.  The hypotheses are the reachable-state invariants:
unique job ids in `ready`, unique platform ids, pairwise-disjoint
allocations, allocated ids on the platform, reserved-but-unstarted
resources not computing, host-uniform power transitions, and the job not
yet in `running` nor already issued. -/
theorem start_ready_jobs_start_iff (s : RJMSState) (j : Job) (alloc : List Nat)
    (ha : j.allocation = some alloc)
    (hj : j ∈ s.ready)
    (hnodupr : (s.ready.map Job.id).Nodup)
    (hnodupp : (s.platform.map Resource.id).Nodup)
    (hdisj : ∀ k ∈ s.ready, k.id ≠ j.id → ∀ x ∈ k.alloc, x ∉ alloc)
    (hex : ∀ rid ∈ alloc, ∃ r ∈ s.platform, r.id = rid)
    (hnc : ∀ r ∈ s.platform, r.id ∈ alloc → r.state ≠ .computing)
    (hcoh : ∀ r ∈ s.platform, ∀ r2 ∈ s.platform, r.parent_id = r2.parent_id →
        r.state = .idle → r2.state = .idle ∨ r2.state = .computing)
    (hrun0 : alookup s.running j.id = none) :
    ((alookup (start_ready_jobs s).running j.id = some (job_start j s.sim.time)
        ∧ Request.execute j.id alloc ∈ (start_ready_jobs s).requests
        ∧ (∀ rid ∈ alloc, stateOf (start_ready_jobs s).platform rid = some .computing)
        ∧ j ∉ (start_ready_jobs s).ready)
      ↔ allocHostsReady s.platform alloc)
    ∧ (j ∈ (start_ready_jobs s).ready ↔ ¬ allocHostsReady s.platform alloc) := by
  have hmain := sweep_main s j alloc ha hj hnodupr hdisj hex hrun0
  have hidleiff := allIdle_iff_hostsReady s.platform alloc hnodupp hex hnc hcoh
  constructor
  · constructor
    · intro hL
      by_contra hnr
      have hnall : ¬ allIdle s.platform alloc := fun h => hnr (hidleiff.mp h)
      have hcontra := (hmain.2 hnall).1
      rw [hL.1] at hcontra
      exact absurd hcontra (by simp)
    · intro hR
      exact hmain.1 (hidleiff.mpr hR)
  · constructor
    · intro hmem hR
      exact ((hmain.1 (hidleiff.mpr hR)).2.2.2) hmem
    · intro hnr
      exact (hmain.2 (fun h => hnr (hidleiff.mp h))).2

/-- Witness for `start_ready_jobs_start_iff` on the one-host state
`sReady` with its allocated job `jReady`. -/
theorem start_ready_jobs_start_iff_witness :
    ((alookup (start_ready_jobs sReady).running jReady.id
        = some (job_start jReady sReady.sim.time)
      ∧ Request.execute jReady.id [0] ∈ (start_ready_jobs sReady).requests
      ∧ (∀ rid ∈ [0], stateOf (start_ready_jobs sReady).platform rid = some .computing)
      ∧ jReady ∉ (start_ready_jobs sReady).ready)
      ↔ allocHostsReady sReady.platform [0])
    ∧ (jReady ∈ (start_ready_jobs sReady).ready ↔ ¬ allocHostsReady sReady.platform [0]) :=
  start_ready_jobs_start_iff sReady jReady [0] rfl (by decide) (by decide) (by decide)
    (by decide) (by decide) (by decide) (by decide) (by decide)

/-! ## C10: `proceed_time` sweeps before advancing -/

theorem proceed_post_preserves (t : RJMSState) (k : Nat) (jid : Nat) (alloc : List Nat) :
    (alookup (proceed_post t).running k = alookup t.running k)
    ∧ (Request.execute jid alloc ∈ (proceed_post t).requests
        ↔ Request.execute jid alloc ∈ t.requests) := by
  unfold proceed_post
  by_cases hb : t.use_batsim = true
  · rw [if_pos hb]
    unfold check_end_of_simulation
    split
    · exact ⟨rfl, Iff.rfl⟩
    · exact ⟨rfl, Iff.rfl⟩
  · rw [if_neg hb]
    exact ⟨rfl, Iff.rfl⟩

/-- Claim C10: `proceed_time` performs the `start_ready_jobs` sweep
before advancing, so an allocated job all of whose hosts are already idle
is started at the (pre-advance) current time by the next `proceed_time`
call, for any `until` argument, even though no simulator event has
arrived since the allocation: afterwards the job is in `running` with
`start_time = current_time` and the `execute_job` request has been
issued. -/
theorem proceed_time_starts_allocated (s : RJMSState) (j : Job) (alloc : List Nat)
    (u : ℚ)
    (hrun : s.sim.running = true)
    (ha : j.allocation = some alloc)
    (hj : j ∈ s.ready)
    (hnodupr : (s.ready.map Job.id).Nodup)
    (hnodupp : (s.platform.map Resource.id).Nodup)
    (hdisj : ∀ k ∈ s.ready, k.id ≠ j.id → ∀ x ∈ k.alloc, x ∉ alloc)
    (hex : ∀ rid ∈ alloc, ∃ r ∈ s.platform, r.id = rid)
    (hidle : ∀ r ∈ s.platform, r.id ∈ alloc →
        ∀ r2 ∈ s.platform, r2.parent_id = r.parent_id → r2.state = .idle)
    (hrun0 : alookup s.running j.id = none) :
    alookup (proceed_time s u).1.running j.id = some (job_start j s.sim.time)
    ∧ Request.execute j.id alloc ∈ (proceed_time s u).1.requests := by
  have hall : allIdle s.platform alloc := by
    intro rid hrid
    rcases hex rid hrid with ⟨r, hr, hid⟩
    have hridle : r.state = .idle := hidle r hr (by rw [hid]; exact hrid) r hr rfl
    have hfind : s.platform.find? (fun x => x.id = rid) = some r := by
      have hf := find?_id_unique hnodupp hr
      rw [hid] at hf
      exact hf
    rw [stateOf_eq_some_state hfind, hridle]
  have hmain := (sweep_main s j alloc ha hj hnodupr hdisj hex hrun0).1 hall
  unfold proceed_time
  rw [if_pos hrun]
  by_cases hu : 0 < u
  · rw [if_pos hu]
    by_cases ht : (start_ready_jobs s).sim.time < u
    · rw [if_pos ht]
      exact ⟨((proceed_post_preserves _ j.id j.id alloc).1).trans hmain.1,
        ((proceed_post_preserves _ j.id j.id alloc).2).mpr
          (List.mem_append_left _ hmain.2.1)⟩
    · rw [if_neg ht]
      exact ⟨hmain.1, hmain.2.1⟩
  · rw [if_neg hu]
    exact ⟨((proceed_post_preserves _ j.id j.id alloc).1).trans hmain.1,
      ((proceed_post_preserves _ j.id j.id alloc).2).mpr hmain.2.1⟩

/-- Witness for `proceed_time_starts_allocated` on `sReady` at
`until = 0`. -/
theorem proceed_time_starts_allocated_witness :
    alookup (proceed_time sReady 0).1.running jReady.id
      = some (job_start jReady sReady.sim.time)
    ∧ Request.execute jReady.id [0] ∈ (proceed_time sReady 0).1.requests :=
  proceed_time_starts_allocated sReady jReady [0] 0 (by decide) rfl (by decide)
    (by decide) (by decide) (by decide) (by decide) (by decide) (by decide)

end BatsimPy
